import Mathlib

/-!
Verification of the koka runtime sources against their specification.

Shallow embedding of:
* `src/cruntime/include/runtime/bits.h` — bit-manipulation primitives
  (clz/ctz, population count, parity) in their implementation variants:
  the MSVC intrinsic path, the GCC builtin path, and the portable
  fallback path (de Bruijn multiplication, SWAR popcount, XOR fold).
  Machine `uint32_t` values are Nats below `2^32`; wrap-around is an
  explicit `% 4294967296`.
* `src/kklib/src/os.c` — text-file read/write, environment retrieval
  and real-path resolution, with the platform C library modelled as an
  explicit outcome oracle.
* `src/.floatbench/v2.3.2/clang-debug/test_float_bench2.h` — the
  generated effect-handler clause-selection and operation-call code,
  over an explicit reference-counting heap model.
-/

/-! ## Population count (specification-level bit count)

`popcount n` is the number of set bits of `n`, written with structural
fuel so that it evaluates by kernel reduction. -/

/-- Fuel-driven bit count: one fuel unit per halving step. -/
def popcountFuel : Nat → Nat → Nat
  | 0, _ => 0
  | f + 1, n => if n = 0 then 0 else n % 2 + popcountFuel f (n / 2)

/-- The number of set bits in the binary representation of `n`. -/
def popcount (n : Nat) : Nat := popcountFuel n n

theorem popcountFuel_congr : ∀ (f g n : Nat), n ≤ f → n ≤ g →
    popcountFuel f n = popcountFuel g n := by
  intro f
  induction f with
  | zero =>
    intro g n hf _
    interval_cases n
    cases g <;> simp [popcountFuel]
  | succ f ih =>
    intro g n hf hg
    cases g with
    | zero =>
      interval_cases n
      simp [popcountFuel]
    | succ g =>
      by_cases hn : n = 0
      · simp [popcountFuel, hn]
      · have h2 : n / 2 ≤ f := by omega
        have h2g : n / 2 ≤ g := by omega
        simp [popcountFuel, hn, ih g (n / 2) h2 h2g]

theorem popcount_rec (n : Nat) : popcount n = n % 2 + popcount (n / 2) := by
  by_cases hn : n = 0
  · simp [popcount, popcountFuel, hn]
  · obtain ⟨m, rfl⟩ : ∃ m, n = m + 1 := ⟨n - 1, by omega⟩
    show popcountFuel (m + 1) (m + 1) = _
    rw [show popcountFuel (m + 1) (m + 1)
        = (m + 1) % 2 + popcountFuel m ((m + 1) / 2) from by
      simp [popcountFuel]]
    congr 1
    apply popcountFuel_congr <;> omega

theorem popcount_two_mul_add (m r : Nat) (hr : r < 2) :
    popcount (2 * m + r) = r + popcount m := by
  rw [popcount_rec (2 * m + r)]
  have h1 : (2 * m + r) % 2 = r := by omega
  have h2 : (2 * m + r) / 2 = m := by omega
  rw [h1, h2]

/-- Splitting a number at bit `k` splits its bit count. -/
theorem popcount_split (k : Nat) : ∀ x : Nat,
    popcount x = popcount (x % 2 ^ k) + popcount (x / 2 ^ k) := by
  induction k with
  | zero =>
    intro x
    simp [Nat.pow_zero, Nat.mod_one, Nat.div_one, popcount, popcountFuel]
  | succ k ih =>
    intro x
    have hmod : x % 2 ^ (k + 1) = 2 * ((x / 2) % 2 ^ k) + x % 2 := by
      have h2 : (2:Nat) ^ (k + 1) = 2 * 2 ^ k := by ring
      rw [h2, Nat.mod_mul]
      omega
    have hdiv : x / 2 ^ (k + 1) = (x / 2) / 2 ^ k := by
      rw [Nat.div_div_eq_div_mul]
      ring_nf
    rw [hmod, hdiv, popcount_two_mul_add _ _ (Nat.mod_lt x (by omega)),
      popcount_rec x, ih (x / 2)]
    omega

/-- Bit counts are subadditive across XOR, and agree with the sum mod 2. -/
theorem popcount_xor_mod_two : ∀ x y : Nat,
    popcount (x ^^^ y) % 2 = (popcount x + popcount y) % 2 := by
  intro x
  induction x using Nat.strong_induction_on with
  | _ x ih =>
    intro y
    by_cases hx : x = 0
    · simp [hx, popcount, popcountFuel]
    · have hmod : (x ^^^ y) % 2 = (x % 2 + y % 2) % 2 := by
        rcases Nat.mod_two_eq_zero_or_one x with h1 | h1 <;>
          rcases Nat.mod_two_eq_zero_or_one y with h2 | h2 <;>
          rcases Nat.mod_two_eq_zero_or_one (x ^^^ y) with h3 | h3 <;>
          simp [h1, h2, h3] <;>
          · exfalso
            have := Nat.xor_mod_two_eq_one (a := x) (b := y)
            simp [h1, h2, h3] at this
      have hdiv := Nat.xor_div_two (a := x) (b := y)
      have ihd := ih (x / 2) (by omega) (y / 2)
      rw [popcount_rec (x ^^^ y), hdiv, popcount_rec x, popcount_rec y]
      omega

/-- Values below `2^k` have at most `k` set bits. -/
theorem popcount_le_of_lt (k : Nat) : ∀ x : Nat, x < 2 ^ k → popcount x ≤ k := by
  induction k with
  | zero =>
    intro x hx
    interval_cases x
    simp [popcount, popcountFuel]
  | succ k ih =>
    intro x hx
    rw [popcount_rec x]
    have : x / 2 < 2 ^ k := by
      have h2 : (2:Nat) ^ (k + 1) = 2 * 2 ^ k := by ring
      omega
    have := ih (x / 2) this
    omega

/-! ## Bitwise split lemmas

`uint32_t` SWAR code mixes arithmetic with bitwise masking; these lemmas
move `&&&` and `^^^` through a split of a number at bit `k`. -/

theorem land_split (k a b c d : Nat) (ha : a < 2 ^ k) (hc : c < 2 ^ k) :
    (a + 2 ^ k * b) &&& (c + 2 ^ k * d) = (a &&& c) + 2 ^ k * (b &&& d) := by
  have hac : (a &&& c) < 2 ^ k := Nat.and_lt_two_pow a hc
  apply Nat.eq_of_testBit_eq
  intro j
  rw [show a + 2 ^ k * b = 2 ^ k * b + a by omega,
    show c + 2 ^ k * d = 2 ^ k * d + c by omega,
    show (a &&& c) + 2 ^ k * (b &&& d) = 2 ^ k * (b &&& d) + (a &&& c) by omega,
    Nat.testBit_and, Nat.testBit_mul_pow_two_add _ ha,
    Nat.testBit_mul_pow_two_add _ hc, Nat.testBit_mul_pow_two_add _ hac]
  by_cases h : j < k <;> simp [h]

theorem xor_mod_two_pow (a b k : Nat) :
    (a ^^^ b) % 2 ^ k = (a % 2 ^ k) ^^^ (b % 2 ^ k) := by
  rw [← Nat.and_pow_two_sub_one_eq_mod (a ^^^ b) k,
    ← Nat.and_pow_two_sub_one_eq_mod a k,
    ← Nat.and_pow_two_sub_one_eq_mod b k,
    Nat.and_xor_distrib_right]

/-- Exhaustively check a predicate on `2^k` consecutive values, with a
balanced recursion so that kernel reduction stays shallow. -/
def checkPow (p : Nat → Bool) (lo : Nat) : Nat → Bool
  | 0 => p lo
  | k + 1 => checkPow p lo k && checkPow p (lo + 2 ^ k) k

theorem checkPow_sound (p : Nat → Bool) : ∀ (k lo : Nat),
    checkPow p lo k = true → ∀ i, i < 2 ^ k → p (lo + i) = true := by
  intro k
  induction k with
  | zero =>
    intro lo h i hi
    interval_cases i
    simpa [checkPow] using h
  | succ k ih =>
    intro lo h i hi
    simp only [checkPow, Bool.and_eq_true] at h
    by_cases hik : i < 2 ^ k
    · exact ih lo h.1 i hik
    · have h2 : (2:Nat) ^ (k + 1) = 2 * 2 ^ k := by ring
      have := ih (lo + 2 ^ k) h.2 (i - 2 ^ k) (by omega)
      rw [show lo + 2 ^ k + (i - 2 ^ k) = lo + i by omega] at this
      exact this

/-! ## Embedding of `src/cruntime/include/runtime/bits.h`

`uint32_t` values are Nats below `2^32 = 4294967296`; every operation
that can wrap carries an explicit truncation. -/

/-- Truncation to 32 bits (`uint32_t` wrap-around). -/
def w32 (n : Nat) : Nat := n % 4294967296

/-- Wrapping `uint32_t` subtraction (two's complement). -/
def usub32 (a b : Nat) : Nat := (a + 4294967296 - b % 4294967296) % 4294967296

theorem usub32_of_le (a b : Nat) (hb : b ≤ a) (ha : a < 4294967296) :
    usub32 a b = a - b := by
  unfold usub32
  have hb2 : b % 4294967296 = b := Nat.mod_eq_of_lt (by omega)
  rw [hb2]
  omega

/-- Fuel-driven index of the lowest set bit (meaningful for nonzero input). -/
def lowBitAux : Nat → Nat → Nat
  | 0, _ => 0
  | f + 1, x => if x % 2 = 1 then 0 else lowBitAux f (x / 2) + 1

/-- Index of the lowest set bit of a nonzero word. -/
def lowBitIndex (x : Nat) : Nat := lowBitAux x x

/-- Model of the `_BitScanForward` intrinsic per its documented contract:
fails (returns false) on a zero mask, otherwise stores the index of the
lowest set bit. -/
def bitScanForward (x : Nat) : Option Nat :=
  if x = 0 then none else some (lowBitIndex x)

/-- Model of the `_BitScanReverse` intrinsic per its documented contract:
fails on a zero mask, otherwise stores the index of the highest set bit. -/
def bitScanReverse (x : Nat) : Option Nat :=
  if x = 0 then none else some (Nat.log2 x)

/-- `bits_ctz32`, MSVC intrinsic variant (bits.h lines 117-120):
`return (_BitScanForward(&idx, x) ? (uint8_t)idx : 32)`. -/
def bits_ctz32_msvc (x : Nat) : Nat :=
  match bitScanForward x with
  | some idx => idx
  | none => 32

/-- `bits_clz32`, MSVC intrinsic variant (bits.h lines 113-116):
`return (_BitScanReverse(&idx, x) ? 31 - (uint8_t)idx : 32)`. -/
def bits_clz32_msvc (x : Nat) : Nat :=
  match bitScanReverse x with
  | some idx => 31 - idx
  | none => 32

/-- Model of `__builtin_ctz` (trailing-zero count, undefined at zero;
  the wrapper below guards the zero case). -/
def builtinCtz (x : Nat) : Nat := lowBitIndex x

/-- Model of `__builtin_clz` on a 32-bit word (undefined at zero). -/
def builtinClz32 (x : Nat) : Nat := 31 - Nat.log2 x

/-- `bits_ctz32`, GCC builtin variant (bits.h lines 137-139):
`return (x==0 ? 32 : __builtin_ctz(x))`. -/
def bits_ctz32_gnuc (x : Nat) : Nat :=
  if x = 0 then 32 else builtinCtz x

/-- `bits_clz32`, GCC builtin variant (bits.h lines 134-136):
`return (x==0 ? 32 : __builtin_clz(x))`. -/
def bits_clz32_gnuc (x : Nat) : Nat :=
  if x = 0 then 32 else builtinClz32 x

/-- The de Bruijn lookup table of the portable `bits_ctz32`
(bits.h lines 152-155). -/
def ctzDebruijnTable : List Nat :=
  [0, 1, 28, 2, 29, 14, 24, 3, 30, 22, 20, 15, 25, 17, 4, 8,
   31, 27, 13, 23, 21, 19, 16, 7, 26, 12, 18, 6, 11, 5, 10, 9]

/-- `bits_ctz32`, portable fallback variant (bits.h lines 150-157):
`return debruijn[((x & -(int32_t)x) * 0x077CB531) >> 27]`.
`-(int32_t)x` reinterpreted as `uint32_t` is `(2^32 - x) % 2^32`. -/
def bits_ctz32_debruijn (x : Nat) : Nat :=
  ctzDebruijnTable.getD ((w32 ((x &&& w32 (4294967296 - x)) * 0x077CB531)) >>> 27) 0

/-- The de Bruijn lookup table of the portable `bits_clz32`
(bits.h lines 161-164). -/
def clzDebruijnTable : List Nat :=
  [31, 22, 30, 21, 18, 10, 29, 2, 20, 17, 15, 13, 9, 6, 28, 1,
   23, 19, 11, 3, 16, 14, 7, 24, 12, 4, 8, 25, 5, 26, 27, 0]

/-- `bits_clz32`, portable fallback variant (bits.h lines 159-172):
zero check, five OR-folds, then the de Bruijn multiplication. -/
def bits_clz32_debruijn (x : Nat) : Nat :=
  if x = 0 then 32
  else
    let x1 := x ||| x >>> 1
    let x2 := x1 ||| x1 >>> 2
    let x3 := x2 ||| x2 >>> 4
    let x4 := x3 ||| x3 >>> 8
    let x5 := x4 ||| x4 >>> 16
    clzDebruijnTable.getD (w32 (x5 * 0x07C4ACDD) >>> 27) 0

/-- `bits_count32`, MSVC variant (bits.h lines 241-243): the `__popcnt`
intrinsic, modelled by its documented semantics (number of set bits). -/
def bits_count32_msvc (x : Nat) : Nat := popcount x

/-- `bits_count32`, GCC variant (bits.h lines 252-254): the
`__builtin_popcount` builtin, modelled by its documented semantics. -/
def bits_count32_gnuc (x : Nat) : Nat := popcount x

/-- `bits_count32`, portable SWAR fallback (bits.h lines 263-267):
```
x = x - ((x >> 1) & 0x55555555);
x = (x & 0x33333333) + ((x >> 2) & 0x33333333);
return (((x + (x >> 4) & 0x0F0F0F0F) * 0x01010101) >> 24);
```
(in C, `+` binds tighter than `&`). -/
def bits_count32_swar (x : Nat) : Nat :=
  let x1 := usub32 x (x >>> 1 &&& 0x55555555)
  let x2 := w32 ((x1 &&& 0x33333333) + (x1 >>> 2 &&& 0x33333333))
  w32 ((w32 (x2 + x2 >>> 4) &&& 0x0F0F0F0F) * 0x01010101) >>> 24

/-- `bits_parity32`, MSVC variant (bits.h lines 339-341):
`return ((uint8_t)bits_count32(x) & 1)`. -/
def bits_parity32_msvc (x : Nat) : Nat := bits_count32_msvc x % 256 &&& 1

/-- `bits_parity32`, GCC variant (bits.h lines 347-349): the
`__builtin_parity` builtin, modelled by its documented semantics
(number of set bits modulo two). -/
def bits_parity32_gnuc (x : Nat) : Nat := popcount x % 2

/-- `bits_parity32`, portable XOR-fold fallback (bits.h lines 355-361):
```
x ^= x >> 16; x ^= x >> 8; x ^= x >> 4; x &= 0x0F;
return (uint8_t)(((0x6996 >> x) & 1));
```
`0x6996` is the 16-entry parity lookup table. -/
def bits_parity32_fold (x : Nat) : Nat :=
  let x1 := x ^^^ x >>> 16
  let x2 := x1 ^^^ x1 >>> 8
  let x3 := x2 ^^^ x2 >>> 4
  let x4 := x3 &&& 0x0F
  (0x6996 >>> x4) &&& 1

/-! ## Claim C3: clz/ctz at input zero across implementation variants -/

/-- Claim C3 (code bug): the claim states that `bits_clz32(0) == 32` and
`bits_ctz32(0) == 32` hold in every implementation variant.  The MSVC
and GCC variants and the portable de Bruijn `bits_clz32` do return 32 at
zero, but the portable de Bruijn `bits_ctz32` (bits.h lines 150-157) has
no zero check: `(0 & -0) * 0x077CB531 >> 27 = 0` indexes `debruijn[0] = 0`,
so it returns 0 instead of 32, contradicting its sibling variants and the
documented zero-input contract. -/
theorem claim_C3_ctz_zero_variants :
    bits_ctz32_msvc 0 = 32 ∧ bits_clz32_msvc 0 = 32 ∧
    bits_ctz32_gnuc 0 = 32 ∧ bits_clz32_gnuc 0 = 32 ∧
    bits_clz32_debruijn 0 = 32 ∧
    bits_ctz32_debruijn 0 = 0 := by
  refine ⟨rfl, rfl, rfl, rfl, rfl, ?_⟩
  decide

/-! ## Brute-force byte-level facts for the SWAR popcount and parity -/

/-- One byte of the SWAR popcount pipeline: the three halving steps of
`bits_count32` restricted to an 8-bit lane. -/
def q8 (v : Nat) : Nat :=
  let v1 := v - (v / 2 &&& 0x55)
  let v2 := (v1 &&& 0x33) + (v1 / 4 &&& 0x33)
  (v2 + v2 / 16) &&& 0x0F

/-- Checkable byte-level specification of `q8`. -/
def q8check (v : Nat) : Bool :=
  q8 v == popcount v && decide (popcount v ≤ 8)

set_option maxRecDepth 4096 in
theorem q8_all : checkPow q8check 0 8 = true := by decide

theorem q8_spec (v : Nat) (hv : v < 256) : q8 v = popcount v ∧ popcount v ≤ 8 := by
  have h := checkPow_sound q8check 8 0 q8_all v (by simpa using hv)
  rw [Nat.zero_add] at h
  unfold q8check at h
  simp only [Bool.and_eq_true, beq_iff_eq, decide_eq_true_eq] at h
  exact h

/-- The final fold of the XOR parity fallback on one byte: XOR the two
nibbles and look the result up in the `0x6996` bit table. -/
def par8 (w : Nat) : Nat := (0x6996 >>> ((w % 16) ^^^ (w / 16))) &&& 1

/-- Checkable byte-level specification of `par8`. -/
def par8check (w : Nat) : Bool := par8 w == popcount w % 2

set_option maxRecDepth 4096 in
theorem par8_all : checkPow par8check 0 8 = true := by decide

theorem par8_spec (w : Nat) (hw : w < 256) : par8 w = popcount w % 2 := by
  have h := checkPow_sound par8check 8 0 par8_all w (by simpa using hw)
  rw [Nat.zero_add] at h
  unfold par8check at h
  simpa using h

/-! ## Splitting the SWAR pipeline into independent lanes -/

theorem land_split_m (M k a b c d : Nat) (hM : M = 2 ^ k)
    (ha : a < M) (hc : c < M) :
    (a + M * b) &&& (c + M * d) = (a &&& c) + M * (b &&& d) := by
  subst hM
  exact land_split k a b c d ha hc

theorem land_add_high_m (M k a c m : Nat) (hM : M = 2 ^ k)
    (ha : a < M) (hm : m < M) :
    (a + M * c) &&& m = a &&& m := by
  have h := land_split_m M k a c m 0 hM ha hm
  simpa using h

theorem land_mod16_le (x m : Nat) : (x &&& m) % 16 ≤ m &&& 15 := by
  have h1 : (x &&& m) % 16 = x &&& m &&& 15 := by
    rw [show (16:Nat) = 2 ^ 4 from rfl, ← Nat.and_pow_two_sub_one_eq_mod]
  rw [h1, Nat.and_assoc]
  exact Nat.and_le_right

/-- The 16-bit restriction of the SWAR popcount pipeline (two byte lanes). -/
def q16 (v : Nat) : Nat :=
  let v1 := v - (v / 2 &&& 0x5555)
  let v2 := (v1 &&& 0x3333) + (v1 / 4 &&& 0x3333)
  (v2 + v2 / 16) &&& 0x0F0F

/-- A 16-bit SWAR lane computes its two byte lanes side by side. -/
theorem q16_lane (a b : Nat) (ha : a < 256) (hb : b < 256) :
    q16 (a + 256 * b) = q8 a + 256 * q8 b := by
  have hm : (a + 256 * b) / 2 &&& 0x5555
      = (a / 2 &&& 0x55) + 256 * (b / 2 &&& 0x55) := by
    rw [show (a + 256 * b) / 2 = (a / 2 + 128 * (b % 2)) + 256 * (b / 2) by omega,
      show (0x5555:Nat) = 0x55 + 256 * 0x55 from rfl,
      land_split_m 256 8 _ _ _ _ (by norm_num) (by omega) (by norm_num),
      land_add_high_m 128 7 _ _ _ (by norm_num) (by omega) (by norm_num)]
  have hma : a / 2 &&& 0x55 ≤ a / 2 := Nat.and_le_left
  have hmb : b / 2 &&& 0x55 ≤ b / 2 := Nat.and_le_left
  have e1 : (a + 256 * b) - ((a + 256 * b) / 2 &&& 0x5555)
      = (a - (a / 2 &&& 0x55)) + 256 * (b - (b / 2 &&& 0x55)) := by
    rw [hm]
    omega
  set p := a - (a / 2 &&& 0x55) with hp
  set q := b - (b / 2 &&& 0x55) with hq
  have hpa : p < 256 := by omega
  have hqb : q < 256 := by omega
  have e2A : ((a + 256 * b) - ((a + 256 * b) / 2 &&& 0x5555)) &&& 0x3333
      = (p &&& 0x33) + 256 * (q &&& 0x33) := by
    rw [e1, show (0x3333:Nat) = 0x33 + 256 * 0x33 from rfl,
      land_split_m 256 8 _ _ _ _ (by norm_num) hpa (by norm_num)]
  have e2B : ((a + 256 * b) - ((a + 256 * b) / 2 &&& 0x5555)) / 4 &&& 0x3333
      = (p / 4 &&& 0x33) + 256 * (q / 4 &&& 0x33) := by
    rw [e1, show (p + 256 * q) / 4 = (p / 4 + 64 * (q % 4)) + 256 * (q / 4) by omega,
      show (0x3333:Nat) = 0x33 + 256 * 0x33 from rfl,
      land_split_m 256 8 _ _ _ _ (by norm_num) (by omega) (by norm_num),
      land_add_high_m 64 6 _ _ _ (by norm_num) (by omega) (by norm_num)]
  set P := (p &&& 0x33) + (p / 4 &&& 0x33) with hP
  set Q := (q &&& 0x33) + (q / 4 &&& 0x33) with hQ
  have hPle : P ≤ 102 := by
    have h1 : p &&& 0x33 ≤ 0x33 := Nat.and_le_right
    have h2 : p / 4 &&& 0x33 ≤ 0x33 := Nat.and_le_right
    omega
  have hQle : Q ≤ 102 := by
    have h1 : q &&& 0x33 ≤ 0x33 := Nat.and_le_right
    have h2 : q / 4 &&& 0x33 ≤ 0x33 := Nat.and_le_right
    omega
  have hQmod : Q % 16 ≤ 6 := by
    have h1 := land_mod16_le q 0x33
    have h2 := land_mod16_le (q / 4) 0x33
    rw [show (0x33:Nat) &&& 15 = 3 from rfl] at h1 h2
    omega
  have e3 : (P + 256 * Q) + (P + 256 * Q) / 16
      = (P + P / 16 + 16 * (Q % 16)) + 256 * (Q + Q / 16) := by
    omega
  have hL : P + P / 16 + 16 * (Q % 16) < 256 := by omega
  have e5 : ((P + P / 16 + 16 * (Q % 16)) + 256 * (Q + Q / 16)) &&& 0x0F0F
      = ((P + P / 16 + 16 * (Q % 16)) &&& 0x0F)
        + 256 * ((Q + Q / 16) &&& 0x0F) := by
    rw [show (0x0F0F:Nat) = 0x0F + 256 * 0x0F from rfl,
      land_split_m 256 8 _ _ _ _ (by norm_num) hL (by norm_num)]
  have eL : (P + P / 16 + 16 * (Q % 16)) &&& 0x0F = (P + P / 16) &&& 0x0F := by
    have h1 : (P + P / 16 + 16 * (Q % 16)) &&& 0x0F
        = (P + P / 16 + 16 * (Q % 16)) % 16 := by
      rw [show (0x0F:Nat) = 2 ^ 4 - 1 from rfl, Nat.and_pow_two_sub_one_eq_mod]
    have h2 : (P + P / 16) &&& 0x0F = (P + P / 16) % 16 := by
      rw [show (0x0F:Nat) = 2 ^ 4 - 1 from rfl, Nat.and_pow_two_sub_one_eq_mod]
    rw [h1, h2]
    omega
  simp only [q16, q8]
  rw [e2A, e2B, ← hp, ← hq]
  rw [show (p &&& 0x33) + 256 * (q &&& 0x33) + ((p / 4 &&& 0x33) + 256 * (q / 4 &&& 0x33))
      = P + 256 * Q from by rw [hP, hQ]; ring]
  rw [e3, e5, eL, ← hP, ← hQ]

/-- The portable SWAR `bits_count32` computes the bit count. -/
theorem bits_count32_swar_eq (x : Nat) (hx : x < 4294967296) :
    bits_count32_swar x = popcount x := by
  obtain ⟨a, b, ha, hb, rfl⟩ : ∃ a b, a < 65536 ∧ b < 65536 ∧ x = a + 65536 * b :=
    ⟨x % 65536, x / 65536, Nat.mod_lt _ (by norm_num), by omega, by omega⟩
  have hshr1 : (a + 65536 * b) >>> 1 = (a + 65536 * b) / 2 := by
    rw [Nat.shiftRight_eq_div_pow]
  have hm : (a + 65536 * b) / 2 &&& 0x55555555
      = (a / 2 &&& 0x5555) + 65536 * (b / 2 &&& 0x5555) := by
    rw [show (a + 65536 * b) / 2 = (a / 2 + 32768 * (b % 2)) + 65536 * (b / 2) by omega,
      show (0x55555555:Nat) = 0x5555 + 65536 * 0x5555 from rfl,
      land_split_m 65536 16 _ _ _ _ (by norm_num) (by omega) (by norm_num),
      land_add_high_m 32768 15 _ _ _ (by norm_num) (by omega) (by norm_num)]
  have hma : a / 2 &&& 0x5555 ≤ a / 2 := Nat.and_le_left
  have hmb : b / 2 &&& 0x5555 ≤ b / 2 := Nat.and_le_left
  have hmle : (a + 65536 * b) / 2 &&& 0x55555555 ≤ a + 65536 * b := by
    rw [hm]
    omega
  have hsub : usub32 (a + 65536 * b) ((a + 65536 * b) >>> 1 &&& 0x55555555)
      = (a - (a / 2 &&& 0x5555)) + 65536 * (b - (b / 2 &&& 0x5555)) := by
    rw [hshr1, usub32_of_le _ _ hmle (by omega), hm]
    omega
  set p := a - (a / 2 &&& 0x5555) with hp
  set q := b - (b / 2 &&& 0x5555) with hq
  have hpa : p < 65536 := by omega
  have hqb : q < 65536 := by omega
  have e2A : (p + 65536 * q) &&& 0x33333333
      = (p &&& 0x3333) + 65536 * (q &&& 0x3333) := by
    rw [show (0x33333333:Nat) = 0x3333 + 65536 * 0x3333 from rfl,
      land_split_m 65536 16 _ _ _ _ (by norm_num) hpa (by norm_num)]
  have hshr2 : (p + 65536 * q) >>> 2 = (p + 65536 * q) / 4 := by
    rw [Nat.shiftRight_eq_div_pow]
  have e2B : (p + 65536 * q) >>> 2 &&& 0x33333333
      = (p / 4 &&& 0x3333) + 65536 * (q / 4 &&& 0x3333) := by
    rw [hshr2,
      show (p + 65536 * q) / 4 = (p / 4 + 16384 * (q % 4)) + 65536 * (q / 4) by omega,
      show (0x33333333:Nat) = 0x3333 + 65536 * 0x3333 from rfl,
      land_split_m 65536 16 _ _ _ _ (by norm_num) (by omega) (by norm_num),
      land_add_high_m 16384 14 _ _ _ (by norm_num) (by omega) (by norm_num)]
  set P := (p &&& 0x3333) + (p / 4 &&& 0x3333) with hP
  set Q := (q &&& 0x3333) + (q / 4 &&& 0x3333) with hQ
  have hPle : P ≤ 26214 := by
    have h1 : p &&& 0x3333 ≤ 0x3333 := Nat.and_le_right
    have h2 : p / 4 &&& 0x3333 ≤ 0x3333 := Nat.and_le_right
    omega
  have hQle : Q ≤ 26214 := by
    have h1 : q &&& 0x3333 ≤ 0x3333 := Nat.and_le_right
    have h2 : q / 4 &&& 0x3333 ≤ 0x3333 := Nat.and_le_right
    omega
  have hx2sum : ((p + 65536 * q) &&& 0x33333333) + ((p + 65536 * q) >>> 2 &&& 0x33333333)
      = P + 65536 * Q := by
    rw [e2A, e2B, hP, hQ]
    ring
  have hx2wrap : w32 (P + 65536 * Q) = P + 65536 * Q := by
    unfold w32
    apply Nat.mod_eq_of_lt
    omega
  have hshr4 : (P + 65536 * Q) >>> 4 = (P + 65536 * Q) / 16 := by
    rw [Nat.shiftRight_eq_div_pow]
  have hQmod : Q % 16 ≤ 6 := by
    have h1 := land_mod16_le q 0x3333
    have h2 := land_mod16_le (q / 4) 0x3333
    rw [show (0x3333:Nat) &&& 15 = 3 from rfl] at h1 h2
    omega
  have e3 : (P + 65536 * Q) + (P + 65536 * Q) / 16
      = (P + P / 16 + 4096 * (Q % 16)) + 65536 * (Q + Q / 16) := by
    omega
  have hL : P + P / 16 + 4096 * (Q % 16) < 65536 := by omega
  have hwrap2 : w32 ((P + 65536 * Q) + (P + 65536 * Q) / 16)
      = (P + P / 16 + 4096 * (Q % 16)) + 65536 * (Q + Q / 16) := by
    unfold w32
    rw [e3]
    apply Nat.mod_eq_of_lt
    omega
  have e5 : ((P + P / 16 + 4096 * (Q % 16)) + 65536 * (Q + Q / 16)) &&& 0x0F0F0F0F
      = ((P + P / 16 + 4096 * (Q % 16)) &&& 0x0F0F)
        + 65536 * ((Q + Q / 16) &&& 0x0F0F) := by
    rw [show (0x0F0F0F0F:Nat) = 0x0F0F + 65536 * 0x0F0F from rfl,
      land_split_m 65536 16 _ _ _ _ (by norm_num) hL (by norm_num)]
  have hcommon : ∀ t : Nat, t &&& 0x0F0F = t % 4096 &&& 0x0F0F := by
    intro t
    conv_lhs => rw [show t = t % 4096 + 4096 * (t / 4096) by omega]
    rw [land_add_high_m 4096 12 _ _ _ (by norm_num) (by omega) (by norm_num)]
  have eL : (P + P / 16 + 4096 * (Q % 16)) &&& 0x0F0F = (P + P / 16) &&& 0x0F0F := by
    rw [hcommon (P + P / 16 + 4096 * (Q % 16)), hcommon (P + P / 16)]
    congr 1
    omega
  have hq16a : q16 a = (P + P / 16) &&& 0x0F0F := by
    simp only [q16]
  have hq16b : q16 b = (Q + Q / 16) &&& 0x0F0F := by
    simp only [q16]
  have hq16a2 : q16 a = q8 (a % 256) + 256 * q8 (a / 256) := by
    have h := q16_lane (a % 256) (a / 256) (by omega) (by omega)
    rw [show a % 256 + 256 * (a / 256) = a by omega] at h
    exact h
  have hq16b2 : q16 b = q8 (b % 256) + 256 * q8 (b / 256) := by
    have h := q16_lane (b % 256) (b / 256) (by omega) (by omega)
    rw [show b % 256 + 256 * (b / 256) = b by omega] at h
    exact h
  obtain ⟨hn0, hb0⟩ := q8_spec (a % 256) (by omega)
  obtain ⟨hn1, hb1⟩ := q8_spec (a / 256) (by omega)
  obtain ⟨hn2, hb2⟩ := q8_spec (b % 256) (by omega)
  obtain ⟨hn3, hb3⟩ := q8_spec (b / 256) (by omega)
  -- assemble the pipeline
  simp only [bits_count32_swar]
  rw [hsub, hx2sum, hx2wrap, hshr4, hwrap2, e5, eL, ← hq16a, ← hq16b,
    hq16a2, hq16b2, hn0, hn1, hn2, hn3]
  -- the final multiply-and-extract sums the four byte counts
  have hexp : ((popcount (a % 256) + 256 * popcount (a / 256))
        + 65536 * (popcount (b % 256) + 256 * popcount (b / 256))) * 0x01010101
      = (popcount (a % 256)
          + 256 * (popcount (a % 256) + popcount (a / 256))
          + 65536 * (popcount (a % 256) + popcount (a / 256) + popcount (b % 256))
          + 16777216 * (popcount (a % 256) + popcount (a / 256)
              + popcount (b % 256) + popcount (b / 256)))
        + 4294967296 * ((popcount (a / 256) + popcount (b % 256) + popcount (b / 256))
          + 256 * (popcount (b % 256) + popcount (b / 256))
          + 65536 * popcount (b / 256)) := by
    ring
  rw [hexp]
  unfold w32
  rw [Nat.add_mul_mod_self_left, Nat.shiftRight_eq_div_pow]
  have hsplit16 : popcount (a + 65536 * b) = popcount a + popcount b := by
    have h := popcount_split 16 (a + 65536 * b)
    rw [show (2:Nat) ^ 16 = 65536 from by norm_num,
      show (a + 65536 * b) % 65536 = a by omega,
      show (a + 65536 * b) / 65536 = b by omega] at h
    exact h
  have hsplit8a : popcount a = popcount (a % 256) + popcount (a / 256) := by
    have h := popcount_split 8 a
    rw [show (2:Nat) ^ 8 = 256 from by norm_num] at h
    exact h
  have hsplit8b : popcount b = popcount (b % 256) + popcount (b / 256) := by
    have h := popcount_split 8 b
    rw [show (2:Nat) ^ 8 = 256 from by norm_num] at h
    exact h
  rw [hsplit16, hsplit8a, hsplit8b]
  have hA : popcount (a % 256)
      + 256 * (popcount (a % 256) + popcount (a / 256))
      + 65536 * (popcount (a % 256) + popcount (a / 256) + popcount (b % 256))
      + 16777216 * (popcount (a % 256) + popcount (a / 256)
          + popcount (b % 256) + popcount (b / 256)) < 4294967296 := by
    omega
  rw [Nat.mod_eq_of_lt hA, show (2:Nat) ^ 24 = 16777216 from by norm_num]
  omega

/-- The portable XOR-fold `bits_parity32` computes the bit count mod 2. -/
theorem bits_parity32_fold_eq (x : Nat) (hx : x < 4294967296) :
    bits_parity32_fold x = popcount x % 2 := by
  obtain ⟨a, b, ha, hb, rfl⟩ : ∃ a b, a < 65536 ∧ b < 65536 ∧ x = a + 65536 * b :=
    ⟨x % 65536, x / 65536, Nat.mod_lt _ (by norm_num), by omega, by omega⟩
  have hs16 : ∀ t : Nat, t >>> 16 = t / 65536 := fun t => by
    rw [Nat.shiftRight_eq_div_pow]
  have hs8 : ∀ t : Nat, t >>> 8 = t / 256 := fun t => by
    rw [Nat.shiftRight_eq_div_pow]
  have hs4 : ∀ t : Nat, t >>> 4 = t / 16 := fun t => by
    rw [Nat.shiftRight_eq_div_pow]
  have hv : ((a + 65536 * b) ^^^ b) % 65536 = a ^^^ b := by
    have hxm := xor_mod_two_pow (a + 65536 * b) b 16
    rw [show (2:Nat) ^ 16 = 65536 from by norm_num] at hxm
    rw [hxm, show (a + 65536 * b) % 65536 = a by omega, Nat.mod_eq_of_lt hb]
  have hY2 : (((a + 65536 * b) ^^^ b) ^^^ ((a + 65536 * b) ^^^ b) / 256) % 256
      = ((a ^^^ b) % 256) ^^^ ((a ^^^ b) / 256) := by
    have hxm := xor_mod_two_pow ((a + 65536 * b) ^^^ b)
      (((a + 65536 * b) ^^^ b) / 256) 8
    rw [show (2:Nat) ^ 8 = 256 from by norm_num] at hxm
    rw [hxm]
    congr 1
    · rw [← hv]
      omega
    · rw [← hv]
      omega
  have hz : ((((a + 65536 * b) ^^^ b) ^^^ ((a + 65536 * b) ^^^ b) / 256)
        ^^^ ((((a + 65536 * b) ^^^ b) ^^^ ((a + 65536 * b) ^^^ b) / 256) / 16)) % 16
      = ((((a ^^^ b) % 256) ^^^ ((a ^^^ b) / 256)) % 16)
        ^^^ ((((a ^^^ b) % 256) ^^^ ((a ^^^ b) / 256)) / 16) := by
    have hxm := xor_mod_two_pow
      ((((a + 65536 * b) ^^^ b) ^^^ ((a + 65536 * b) ^^^ b) / 256))
      ((((a + 65536 * b) ^^^ b) ^^^ ((a + 65536 * b) ^^^ b) / 256) / 16) 4
    rw [show (2:Nat) ^ 4 = 16 from by norm_num] at hxm
    rw [hxm]
    congr 1
    · rw [← hY2]
      omega
    · rw [← hY2]
      omega
  have hW : (((a ^^^ b) % 256) ^^^ ((a ^^^ b) / 256)) < 256 := by
    have hab : a ^^^ b < 65536 := by
      have h := Nat.xor_lt_two_pow (x := a) (y := b) (n := 16)
        (by norm_num; omega) (by norm_num; omega)
      rw [show (2:Nat) ^ 16 = 65536 from by norm_num] at h
      exact h
    have h := Nat.xor_lt_two_pow (x := (a ^^^ b) % 256) (y := (a ^^^ b) / 256)
      (n := 8) (by norm_num; omega) (by norm_num; omega)
    rw [show (2:Nat) ^ 8 = 256 from by norm_num] at h
    exact h
  have hpar := par8_spec _ hW
  simp only [par8] at hpar
  simp only [bits_parity32_fold]
  rw [hs16, show (a + 65536 * b) / 65536 = b by omega, hs8, hs4,
    show (0x0F:Nat) = 2 ^ 4 - 1 from rfl, Nat.and_pow_two_sub_one_eq_mod,
    show (2:Nat) ^ 4 = 16 from by norm_num, hz, hpar]
  have e1 : popcount ((((a ^^^ b) % 256) ^^^ ((a ^^^ b) / 256))) % 2
      = popcount (a ^^^ b) % 2 := by
    have hx1 := popcount_xor_mod_two ((a ^^^ b) % 256) ((a ^^^ b) / 256)
    have hs := popcount_split 8 (a ^^^ b)
    rw [show (2:Nat) ^ 8 = 256 from by norm_num] at hs
    omega
  have e2 := popcount_xor_mod_two a b
  have e3 : popcount (a + 65536 * b) = popcount a + popcount b := by
    have h := popcount_split 16 (a + 65536 * b)
    rw [show (2:Nat) ^ 16 = 65536 from by norm_num,
      show (a + 65536 * b) % 65536 = a by omega,
      show (a + 65536 * b) / 65536 = b by omega] at h
    exact h
  omega

/-! ## Claims C7 and C8: popcount and parity variants -/

/-- Claim C8: in every implementation variant — the MSVC `__popcnt`
path, the GCC `__builtin_popcount` path, and the portable SWAR fallback —
`bits_count32 x` equals the number of set bits of `x` for every 32-bit
word `x`. -/
theorem claim_C8_count32_variants (x : Nat) (hx : x < 4294967296) :
    bits_count32_msvc x = popcount x ∧ bits_count32_gnuc x = popcount x ∧
    bits_count32_swar x = popcount x :=
  ⟨rfl, rfl, bits_count32_swar_eq x hx⟩

/-- Witness for C8 at the concrete word `0xFFFFFFFF`, whose bit count
is 32 as the spec scenario requires. -/
theorem claim_C8_count32_variants_witness :
    0xFFFFFFFF < 4294967296 ∧ bits_count32_swar 0xFFFFFFFF = popcount 0xFFFFFFFF
      ∧ popcount 0xFFFFFFFF = 32 :=
  ⟨by norm_num, (claim_C8_count32_variants 0xFFFFFFFF (by norm_num)).2.2, by decide⟩

/-- Claim C7: in every implementation variant — the MSVC path
(`(uint8_t)bits_count32(x) & 1`), the GCC `__builtin_parity` path, and
the portable XOR-fold with the `0x6996` lookup table — `bits_parity32 x`
equals the corresponding `bits_count32 x` modulo 2 for every 32-bit
word `x`. -/
theorem claim_C7_parity32_variants (x : Nat) (hx : x < 4294967296) :
    bits_parity32_msvc x = bits_count32_msvc x % 2 ∧
    bits_parity32_gnuc x = bits_count32_gnuc x % 2 ∧
    bits_parity32_fold x = bits_count32_swar x % 2 := by
  refine ⟨?_, rfl, ?_⟩
  · unfold bits_parity32_msvc bits_count32_msvc
    have hle : popcount x ≤ 32 := by
      apply popcount_le_of_lt 32 x
      norm_num
      omega
    rw [Nat.mod_eq_of_lt (show popcount x < 256 by omega), Nat.and_one_is_mod]
  · rw [bits_parity32_fold_eq x hx, bits_count32_swar_eq x hx]

/-- Witness for C7 at the concrete word `0xDEADBEEF` (24 set bits). -/
theorem claim_C7_parity32_variants_witness :
    0xDEADBEEF < 4294967296 ∧
      bits_parity32_fold 0xDEADBEEF = bits_count32_swar 0xDEADBEEF % 2 ∧
      bits_parity32_fold 0xDEADBEEF = 0 :=
  ⟨by norm_num, (claim_C7_parity32_variants 0xDEADBEEF (by norm_num)).2.2, by decide⟩

/-! ## Embedding of `src/kklib/src/os.c`

C strings are byte lists; the C standard library calls made by os.c
(fopen/fseek/ftell/fread/fwrite, realpath, environ) are modelled as an
explicit outcome oracle passed to each function.  kklib string
primitives used by os.c are declared in headers that are not under
src/ and are modelled where needed. -/

/-- Outcome oracle for the stdio calls made by `kk_os_read_text_file`,
one field per call in source order. -/
structure ReadFileEnv where
  openOk : Bool
  seekEndOk : Bool
  ftellResult : Int
  seekSetOk : Bool
  readBytes : List Nat
  readErr : Bool
  errnoVal : Int

/-- The error code computed at the `fail` labels of os.c:
`return (errno != 0 ? errno : -1)`. -/
def failCode (errnoVal : Int) : Int := if errnoVal ≠ 0 then errnoVal else -1

/-- `kk_os_read_text_file` (os.c lines 17-46): `*result` is set to the
empty string before any I/O; a failing fopen/fseek/ftell/ferror check
jumps to `fail`, which drops the partially built buffer and leaves
`*result` untouched; on success the buffer read by fread (its length
adjusted down to the bytes actually read) is stored in `*result` and 0
is returned.  The value is the pair (return code, final `*result`). -/
def kk_os_read_text_file (env : ReadFileEnv) : Int × List Nat :=
  let result0 : List Nat := []
  if ¬ env.openOk then (failCode env.errnoVal, result0)
  else if ¬ env.seekEndOk then (failCode env.errnoVal, result0)
  else if env.ftellResult < 0 then (failCode env.errnoVal, result0)
  else if ¬ env.seekSetOk then (failCode env.errnoVal, result0)
  else if env.readErr then (failCode env.errnoVal, result0)
  else (0, env.readBytes)

/-- Outcome oracle for the stdio calls made by `kk_os_write_text_file`. -/
structure WriteFileEnv where
  openOk : Bool
  writeResult : Nat
  errnoVal : Int

/-- `kk_os_write_text_file` (os.c lines 48-66): a failing fopen, or a
short fwrite (`nwritten < len`, only checked when `len > 0`), reaches
`fail`; otherwise 0 is returned.  fwrite never reports more than `len`
items, so its result is clamped at `len`. -/
def kk_os_write_text_file (env : WriteFileEnv) (content : List Nat) : Int :=
  if ¬ env.openOk then failCode env.errnoVal
  else if 0 < content.length ∧ min env.writeResult content.length < content.length then
    failCode env.errnoVal
  else 0

/-- Claim C2: `kk_os_read_text_file` and `kk_os_write_text_file` return
0 exactly when every step of the operation succeeded, and on any failure
return `errno` when it is set and -1 otherwise — a nonzero code in
either case. -/
theorem claim_C2_file_io_codes (renv : ReadFileEnv) (wenv : WriteFileEnv)
    (content : List Nat) :
    ((kk_os_read_text_file renv).1 = 0 ↔
      (renv.openOk ∧ renv.seekEndOk ∧ 0 ≤ renv.ftellResult ∧
        renv.seekSetOk ∧ ¬ renv.readErr)) ∧
    ((kk_os_read_text_file renv).1 ≠ 0 →
      (kk_os_read_text_file renv).1
        = (if renv.errnoVal ≠ 0 then renv.errnoVal else -1)) ∧
    (kk_os_write_text_file wenv content = 0 ↔
      (wenv.openOk ∧ (0 < content.length → content.length ≤ wenv.writeResult))) ∧
    (kk_os_write_text_file wenv content ≠ 0 →
      kk_os_write_text_file wenv content
        = (if wenv.errnoVal ≠ 0 then wenv.errnoVal else -1)) ∧
    (∀ e : Int, failCode e ≠ 0) := by
  have hfail : ∀ e : Int, failCode e ≠ 0 := by
    intro e
    unfold failCode
    split_ifs with h
    · exact h
    · omega
  refine ⟨?_, ?_, ?_, ?_, hfail⟩ <;>
    simp only [kk_os_read_text_file, kk_os_write_text_file] <;>
    split_ifs <;>
    simp_all [failCode]

/-- Witness for C2: a successful read returns 0, a read whose fopen
fails with errno 2 returns 2. -/
theorem claim_C2_file_io_codes_witness :
    (kk_os_read_text_file ⟨true, true, 5, true, [104, 105], false, 0⟩).1 = 0 ∧
    (kk_os_read_text_file ⟨false, true, 5, true, [], false, 2⟩).1 = 2 := by
  constructor
  · exact ((claim_C2_file_io_codes ⟨true, true, 5, true, [104, 105], false, 0⟩
      ⟨true, 0, 0⟩ []).1).mpr (by decide)
  · have h := (claim_C2_file_io_codes ⟨false, true, 5, true, [], false, 2⟩
      ⟨true, 0, 0⟩ []).2.1 (by decide)
    rw [h]
    decide

/-- Claim C9: whenever `kk_os_read_text_file` returns a nonzero code,
the `*result` out-parameter still holds the empty string it was
initialized to before any I/O. -/
theorem claim_C9_read_error_empty (env : ReadFileEnv) :
    (kk_os_read_text_file env).1 ≠ 0 → (kk_os_read_text_file env).2 = [] := by
  unfold kk_os_read_text_file
  split_ifs <;> simp

/-- Witness for C9: a read with a failing fopen reports errno 7 and an
empty result. -/
theorem claim_C9_read_error_empty_witness :
    (kk_os_read_text_file ⟨false, true, 0, true, [1, 2], false, 7⟩).1 ≠ 0 ∧
    (kk_os_read_text_file ⟨false, true, 0, true, [1, 2], false, 7⟩).2 = [] :=
  ⟨by decide, claim_C9_read_error_empty _ (by decide)⟩

/-! ## Real-path resolution (os.c lines 193-231) -/

/-- Modelled from the spec: `kk_string_alloc_dup` belongs to kklib's
string layer, which is not under src/ (os.c only calls it).  It
allocates a koka string holding a copy of a C string; a NULL pointer
(`none`) yields the empty string. -/
def kk_string_alloc_dup (s : Option (List Nat)) : List Nat :=
  match s with
  | none => []
  | some cs => cs

/-- `kk_os_realpathx`, POSIX variant (os.c lines 212-217): calls the C
library `realpath(fname, NULL)` — modelled as an oracle returning the
resolved path, or `none` for the NULL it returns on failure — then
duplicates the returned C string and frees it.  Note that the NULL
failure case is passed straight to `kk_string_alloc_dup`: there is no
fallback to `fname` on this path. -/
def kk_os_realpathx_posix (realpathC : List Nat → Option (List Nat))
    (fname : List Nat) : List Nat :=
  kk_string_alloc_dup (realpathC fname)

/-- `kk_os_realpathx`, Windows variant (os.c lines 197-208):
`GetFullPathNameA` fills a 264-byte buffer and returns the length it
needed; a result ≥ 264 (path too long) falls back to duplicating the
input path.  Oracle: `res` is the returned length, `buf` the buffer
contents after the call. -/
def kk_os_realpathx_win (res : Nat) (buf fname : List Nat) : List Nat :=
  if 264 ≤ res then kk_string_alloc_dup (some fname)
  else kk_string_alloc_dup (some buf)

/-- `kk_os_realpathx`, variant for platforms without realpath support
(os.c lines 221-224): always duplicates the input path. -/
def kk_os_realpathx_generic (fname : List Nat) : List Nat :=
  kk_string_alloc_dup (some fname)

/-- `kk_os_realpath` (os.c lines 227-231): resolves the borrowed C
buffer of the argument string and drops the argument (POSIX build). -/
def kk_os_realpath (realpathC : List Nat → Option (List Nat))
    (fname : List Nat) : List Nat :=
  kk_os_realpathx_posix realpathC fname

/-- Claim C6 counterexample: on the POSIX variant, a path whose
resolution fails (realpath returns NULL — e.g. a nonexistent path
"/a") produces the empty string, not a copy of the input path as the
claim states. -/
theorem claim_C6_realpath_counterexample :
    kk_os_realpathx_posix (fun _ => none) [47, 97] = [] ∧
    kk_os_realpathx_posix (fun _ => none) [47, 97] ≠ [47, 97] := by
  constructor
  · rfl
  · decide

/-- Claim C6, amended: the real-path operation returns the resolved
path; it falls back to a copy of the input path when resolution is
unsupported on the platform (the generic variant) and when the Windows
resolved path does not fit the 264-byte buffer; but on the POSIX
variant a failed resolution yields the empty string (NULL duplicated),
not the input path. -/
theorem claim_C6_realpath_amended :
    (∀ fname, kk_os_realpathx_generic fname = fname) ∧
    (∀ rp fname r, rp fname = some r → kk_os_realpathx_posix rp fname = r) ∧
    (∀ rp fname, rp fname = none → kk_os_realpathx_posix rp fname = []) ∧
    (∀ rp fname, kk_os_realpath rp fname = kk_os_realpathx_posix rp fname) ∧
    (∀ res buf fname, 264 ≤ res → kk_os_realpathx_win res buf fname = fname) ∧
    (∀ res buf fname, res < 264 → kk_os_realpathx_win res buf fname = buf) := by
  refine ⟨fun fname => rfl, ?_, ?_, fun rp fname => rfl, ?_, ?_⟩
  · intro rp fname r h
    simp [kk_os_realpathx_posix, kk_string_alloc_dup, h]
  · intro rp fname h
    simp [kk_os_realpathx_posix, kk_string_alloc_dup, h]
  · intro res buf fname h
    simp [kk_os_realpathx_win, kk_string_alloc_dup, h]
  · intro res buf fname h
    simp [kk_os_realpathx_win, kk_string_alloc_dup, h]

/-- Witness for the amended C6: a successful resolution is returned
as-is, and an over-long Windows result falls back to the input. -/
theorem claim_C6_realpath_amended_witness :
    kk_os_realpathx_posix (fun _ => some [47, 104]) [47, 97] = [47, 104] ∧
    kk_os_realpathx_win 264 [1] [2] = [2] ∧
    kk_os_realpathx_win 10 [1] [2] = [1] :=
  ⟨claim_C6_realpath_amended.2.1 _ [47, 97] _ rfl,
   claim_C6_realpath_amended.2.2.2.2.1 264 [1] [2] (by norm_num),
   claim_C6_realpath_amended.2.2.2.2.2 10 [1] [2] (by norm_num)⟩

/-! ## Environment retrieval, POSIX variant (os.c lines 123-143) -/

/-- One POSIX `environ` entry as it sits in memory: `chars` are the
bytes of the entry strictly before its NUL terminator (so none of them
is 0), and `after` are whatever bytes happen to follow the terminator
in memory. -/
structure EnvEntryMem where
  chars : List Nat
  after : List Nat

/-- The per-entry scan of the POSIX `kk_os_get_env` (os.c lines
132-141), over the memory image `chars ++ 0 :: after` of the entry:
`while (*p != '=' && *p != 0) p++` collects the name, `p++` skips the
stopping byte, and `while (*p != 0) p++` collects the value.  61 is
the byte of the = sign. -/
def parseEnvEntry (mem : List Nat) : List Nat × List Nat :=
  let name := mem.takeWhile (fun c => c != 61 && c != 0)
  let rest := mem.dropWhile (fun c => c != 61 && c != 0)
  (name, rest.tail.takeWhile (fun c => c != 0))

/-- `kk_os_get_env`, POSIX variant (os.c lines 123-143): a NULL
`environ` yields the empty vector; otherwise each of the entries
contributes a name slot and a value slot, in order. -/
def kk_os_get_env_posix (environ : Option (List EnvEntryMem)) : List (List Nat) :=
  match environ with
  | none => []
  | some es =>
    (es.map (fun e =>
      let pr := parseEnvEntry (e.chars ++ 0 :: e.after)
      [pr.1, pr.2])).flatten

theorem takeWhile_append_all {p : Nat → Bool} : ∀ (l1 l2 : List Nat),
    (∀ c ∈ l1, p c = true) → (l1 ++ l2).takeWhile p = l1 ++ l2.takeWhile p := by
  intro l1
  induction l1 with
  | nil => intro l2 h; simp
  | cons c cs ih =>
    intro l2 h
    have hc : p c = true := h c (by simp)
    simp only [List.cons_append, List.takeWhile_cons, hc, if_true]
    rw [ih l2 (fun d hd => h d (by simp [hd]))]

theorem dropWhile_append_all {p : Nat → Bool} : ∀ (l1 l2 : List Nat),
    (∀ c ∈ l1, p c = true) → (l1 ++ l2).dropWhile p = l2.dropWhile p := by
  intro l1
  induction l1 with
  | nil => intro l2 h; simp
  | cons c cs ih =>
    intro l2 h
    have hc : p c = true := h c (by simp)
    simp only [List.cons_append, List.dropWhile_cons, hc, if_true]
    exact ih l2 (fun d hd => h d (by simp [hd]))

/-- An entry without `=`: the whole entry becomes the name, and the
value is read from the memory beyond the entry's own terminator. -/
theorem parseEnvEntry_no_eq (chars after : List Nat)
    (h0 : ¬ 0 ∈ chars) (h61 : ¬ 61 ∈ chars) :
    parseEnvEntry (chars ++ 0 :: after)
      = (chars, after.takeWhile (fun c => c != 0)) := by
  have hall : ∀ c ∈ chars, (fun c => c != 61 && c != 0) c = true := by
    intro c hc
    simp only [Bool.and_eq_true, bne_iff_ne]
    exact ⟨fun h => h61 (h ▸ hc), fun h => h0 (h ▸ hc)⟩
  unfold parseEnvEntry
  rw [takeWhile_append_all _ _ hall, dropWhile_append_all _ _ hall]
  simp


/-- An entry with `=`: the name is everything strictly before the
first `=`, the value everything strictly after it up to the entry's
terminator. -/
theorem parseEnvEntry_with_eq : ∀ chars : List Nat, ¬ 0 ∈ chars → 61 ∈ chars →
    ∀ after : List Nat,
    parseEnvEntry (chars ++ 0 :: after)
      = (chars.takeWhile (fun c => c != 61),
         (chars.dropWhile (fun c => c != 61)).tail) := by
  intro chars
  induction chars with
  | nil =>
    intro _ h61
    simp at h61
  | cons c cs ih =>
    intro h0 h61 after
    by_cases hc : c = 61
    · subst hc
      unfold parseEnvEntry
      simp only [List.cons_append, List.takeWhile_cons, List.dropWhile_cons]
      norm_num
      have hcs0 : ∀ d ∈ cs, (fun d => d != 0) d = true := by
        intro d hd
        simp only [bne_iff_ne]
        intro h
        exact h0 (by simp [h ▸ hd])
      rw [takeWhile_append_all _ _ hcs0]
      simp
    · have hc0 : c ≠ 0 := fun h => h0 (by simp [h])
      have hcs61 : 61 ∈ cs := by
        rcases List.mem_cons.mp h61 with h | h
        · exact absurd h.symm hc
        · exact h
      have hcs0 : ¬ 0 ∈ cs := fun h => h0 (by simp [h])
      have hih := ih hcs0 hcs61 after
      unfold parseEnvEntry at hih ⊢
      simp only [List.cons_append, List.takeWhile_cons, List.dropWhile_cons]
      have hpc : (c != 61 && c != 0) = true := by
        simp [hc, hc0]
      have hpc61 : (c != 61) = true := by simp [hc]
      rw [hpc, hpc61]
      simp only [if_true]
      simp only [Prod.mk.injEq] at hih
      exact Prod.ext (by simp [hih.1]) (by simp [hih.2])

theorem get_env_cons (e : EnvEntryMem) (es : List EnvEntryMem) :
    kk_os_get_env_posix (some (e :: es))
      = (parseEnvEntry (e.chars ++ 0 :: e.after)).1
        :: (parseEnvEntry (e.chars ++ 0 :: e.after)).2
        :: kk_os_get_env_posix (some es) := by
  simp [kk_os_get_env_posix]

theorem get_env_append (es1 es2 : List EnvEntryMem) :
    kk_os_get_env_posix (some (es1 ++ es2))
      = kk_os_get_env_posix (some es1) ++ kk_os_get_env_posix (some es2) := by
  simp [kk_os_get_env_posix]

/-- Claim C10, amended: the POSIX `kk_os_get_env` yields the empty
vector for a NULL environ and otherwise exactly `2 * count` slots; an
entry containing `=` contributes the characters strictly before the
first `=` and the characters strictly after it; but an entry without
`=` contributes the whole entry as the name and, as the value, the
bytes that follow the entry's own NUL terminator in memory (the scan
runs past the end of the string), not necessarily the empty string. -/
theorem claim_C10_getenv_amended :
    kk_os_get_env_posix none = [] ∧
    (∀ es, (kk_os_get_env_posix (some es)).length = 2 * es.length) ∧
    (∀ chars after es1 es2, ¬ 0 ∈ chars → 61 ∈ chars →
      kk_os_get_env_posix (some (es1 ++ ⟨chars, after⟩ :: es2))
        = kk_os_get_env_posix (some es1)
          ++ chars.takeWhile (fun c => c != 61)
            :: (chars.dropWhile (fun c => c != 61)).tail
            :: kk_os_get_env_posix (some es2)) ∧
    (∀ chars after es1 es2, ¬ 0 ∈ chars → ¬ 61 ∈ chars →
      kk_os_get_env_posix (some (es1 ++ ⟨chars, after⟩ :: es2))
        = kk_os_get_env_posix (some es1)
          ++ chars :: after.takeWhile (fun c => c != 0)
            :: kk_os_get_env_posix (some es2)) := by
  refine ⟨rfl, ?_, ?_, ?_⟩
  · intro es
    induction es with
    | nil => rfl
    | cons e es ih =>
      rw [get_env_cons]
      simp only [List.length_cons, ih]
      omega
  · intro chars after es1 es2 h0 h61
    rw [get_env_append, get_env_cons]
    simp only
    rw [parseEnvEntry_with_eq chars h0 h61 after]
  · intro chars after es1 es2 h0 h61
    rw [get_env_append, get_env_cons]
    simp only
    rw [parseEnvEntry_no_eq chars after h0 h61]

/-- Witness for the amended C10: a single entry `H=v` yields the pair
of slots (`H`, `v`). -/
theorem claim_C10_getenv_amended_witness :
    kk_os_get_env_posix (some ([] ++ ⟨[72, 61, 118], [5]⟩ :: []))
      = kk_os_get_env_posix (some [])
        ++ List.takeWhile (fun c => c != 61) [72, 61, 118]
          :: (List.dropWhile (fun c => c != 61) [72, 61, 118]).tail
          :: kk_os_get_env_posix (some []) :=
  claim_C10_getenv_amended.2.2.1 [72, 61, 118] [5] [] [] (by decide) (by decide)

/-- Claim C10 counterexample: the entry `AB` (no `=`) followed in
memory by the byte 67 and a zero produces the value `C`, not the empty
string the claim asserts. -/
theorem claim_C10_getenv_counterexample :
    kk_os_get_env_posix (some [⟨[65, 66], [67, 0]⟩]) = [[65, 66], [67]] ∧
    ([67] : List Nat) ≠ [] := by
  constructor
  · rfl
  · decide

/-! ## Embedding of `test_float_bench2.h` (effect handler dispatch)

The generated code manipulates reference-counted heap blocks through
kklib primitives (`dup/drop/free/decref/is_unique`) declared in
headers that are not under src/; following the spec's heap object
model, the heap is modelled as a reference count per address.  Handler
blocks are immutable clause records; each clause owns one refcounted
function object, identified by its address. -/

/-- Heap addresses. -/
abbrev Addr := Nat

/-- The heap: a reference count per address (0 = unallocated or
already freed). -/
structure KHeap where
  rc : Addr → Nat

/-- Modelled from the spec: `kk_basetype_dup` (kklib, not under src/)
increments the reference count of an existing reference. -/
def dupA (σ : KHeap) (a : Addr) : KHeap :=
  ⟨fun x => if x = a then σ.rc x + 1 else σ.rc x⟩

/-- Modelled from the spec: `kk_basetype_decref` decrements the
reference count without scanning fields. -/
def decrefA (σ : KHeap) (a : Addr) : KHeap :=
  ⟨fun x => if x = a then σ.rc x - 1 else σ.rc x⟩

/-- Modelled from the spec: `kk_basetype_free` releases the block's
storage directly, without touching its fields. -/
def freeA (σ : KHeap) (a : Addr) : KHeap :=
  ⟨fun x => if x = a then 0 else σ.rc x⟩

/-- Modelled from the spec: `kk_basetype_is_unique` tests whether the
reference count is exactly one. -/
def isUniqueA (σ : KHeap) (a : Addr) : Bool := σ.rc a == 1

/-- `kk_std_core_hnd__clause0`: holds one refcounted function object. -/
structure Clause0 where
  funAddr : Addr
deriving DecidableEq

/-- `kk_std_core_hnd__clause1`: holds one refcounted function object. -/
structure Clause1 where
  funAddr : Addr
deriving DecidableEq

/-- Modelled from the spec: `kk_std_core_hnd__clause1_dup` adds one
unit of ownership of the clause's function object. -/
def clause1_dup (σ : KHeap) (c : Clause1) : KHeap := dupA σ c.funAddr

/-- Modelled from the spec: `kk_std_core_hnd__clause1_drop` discharges
one unit of ownership of the clause's function object (the recursive
release at count zero stays abstract in the count model). -/
def clause1_drop (σ : KHeap) (c : Clause1) : KHeap := decrefA σ c.funAddr

/-- Modelled from the spec: `kk_std_core_hnd__clause0_dup`. -/
def clause0_dup (σ : KHeap) (c : Clause0) : KHeap := dupA σ c.funAddr

/-- `struct kk_test_float_bench2__Hnd_count`: one clause per operation
of the `:count` effect. -/
structure HndCount where
  fun_one : Clause1
  fun_two : Clause1
deriving DecidableEq

/-- `struct kk_test_float_bench2__Hnd_bra`: the single clause of the
`:bra` effect. -/
structure HndBra where
  fun_brara : Clause0
deriving DecidableEq

/-- `kk_test_float_bench2__select_one` (test_float_bench2.h lines
271-286): read both clause fields; if the handler block is unique,
drop the sibling clause and free the block, returning the requested
clause without a refcount bump; otherwise dup the requested clause and
decrement the block. -/
def select_one (σ : KHeap) (hndAddr : Addr) (con : HndCount) : KHeap × Clause1 :=
  let fun_one := con.fun_one
  let pat0 := con.fun_two
  if isUniqueA σ hndAddr then
    let σ1 := clause1_drop σ pat0
    let σ2 := freeA σ1 hndAddr
    (σ2, fun_one)
  else
    let σ1 := clause1_dup σ fun_one
    let σ2 := decrefA σ1 hndAddr
    (σ2, fun_one)

/-- `kk_test_float_bench2__select_two` (test_float_bench2.h lines
290-305): symmetric to `select_one`, with `fun_one` as the dropped
sibling. -/
def select_two (σ : KHeap) (hndAddr : Addr) (con : HndCount) : KHeap × Clause1 :=
  let pat0 := con.fun_one
  let fun_two := con.fun_two
  if isUniqueA σ hndAddr then
    let σ1 := clause1_drop σ pat0
    let σ2 := freeA σ1 hndAddr
    (σ2, fun_two)
  else
    let σ1 := clause1_dup σ fun_two
    let σ2 := decrefA σ1 hndAddr
    (σ2, fun_two)

/-- `kk_test_float_bench2__select_brara` (test_float_bench2.h lines
254-267): the `:bra` handler has a single clause, so the unique branch
frees the block with no sibling drop. -/
def select_brara (σ : KHeap) (hndAddr : Addr) (con : HndBra) : KHeap × Clause0 :=
  let fun_brara := con.fun_brara
  if isUniqueA σ hndAddr then
    let σ2 := freeA σ hndAddr
    (σ2, fun_brara)
  else
    let σ1 := clause0_dup σ fun_brara
    let σ2 := decrefA σ1 hndAddr
    (σ2, fun_brara)

theorem select_one_clause (σ : KHeap) (h : Addr) (con : HndCount) :
    (select_one σ h con).2 = con.fun_one := by
  unfold select_one
  split_ifs <;> rfl

theorem select_two_clause (σ : KHeap) (h : Addr) (con : HndCount) :
    (select_two σ h con).2 = con.fun_two := by
  unfold select_two
  split_ifs <;> rfl

theorem select_brara_clause (σ : KHeap) (h : Addr) (con : HndBra) :
    (select_brara σ h con).2 = con.fun_brara := by
  unfold select_brara
  split_ifs <;> rfl

theorem select_one_rc (σ : KHeap) (h : Addr) (con : HndCount)
    (h1 : h ≠ con.fun_one.funAddr) (h2 : h ≠ con.fun_two.funAddr)
    (h3 : con.fun_one.funAddr ≠ con.fun_two.funAddr) :
    (select_one σ h con).1.rc h = σ.rc h - 1 ∧
    (σ.rc h = 1 →
      (select_one σ h con).1.rc con.fun_one.funAddr = σ.rc con.fun_one.funAddr ∧
      (select_one σ h con).1.rc con.fun_two.funAddr = σ.rc con.fun_two.funAddr - 1) ∧
    (σ.rc h ≠ 1 →
      (select_one σ h con).1.rc con.fun_one.funAddr = σ.rc con.fun_one.funAddr + 1 ∧
      (select_one σ h con).1.rc con.fun_two.funAddr = σ.rc con.fun_two.funAddr) := by
  unfold select_one isUniqueA clause1_drop clause1_dup dupA decrefA freeA
  by_cases hu : σ.rc h = 1 <;>
    simp [hu, h1, h2, h3, h3.symm, Ne.symm h1, Ne.symm h2]

theorem select_two_rc (σ : KHeap) (h : Addr) (con : HndCount)
    (h1 : h ≠ con.fun_one.funAddr) (h2 : h ≠ con.fun_two.funAddr)
    (h3 : con.fun_one.funAddr ≠ con.fun_two.funAddr) :
    (select_two σ h con).1.rc h = σ.rc h - 1 ∧
    (σ.rc h = 1 →
      (select_two σ h con).1.rc con.fun_two.funAddr = σ.rc con.fun_two.funAddr ∧
      (select_two σ h con).1.rc con.fun_one.funAddr = σ.rc con.fun_one.funAddr - 1) ∧
    (σ.rc h ≠ 1 →
      (select_two σ h con).1.rc con.fun_two.funAddr = σ.rc con.fun_two.funAddr + 1 ∧
      (select_two σ h con).1.rc con.fun_one.funAddr = σ.rc con.fun_one.funAddr) := by
  unfold select_two isUniqueA clause1_drop clause1_dup dupA decrefA freeA
  by_cases hu : σ.rc h = 1 <;>
    simp [hu, h1, h2, h3, h3.symm, Ne.symm h1, Ne.symm h2]

theorem select_brara_rc (σ : KHeap) (h : Addr) (con : HndBra)
    (h1 : h ≠ con.fun_brara.funAddr) :
    (select_brara σ h con).1.rc h = σ.rc h - 1 ∧
    (σ.rc h = 1 →
      (select_brara σ h con).1.rc con.fun_brara.funAddr
        = σ.rc con.fun_brara.funAddr) ∧
    (σ.rc h ≠ 1 →
      (select_brara σ h con).1.rc con.fun_brara.funAddr
        = σ.rc con.fun_brara.funAddr + 1) := by
  unfold select_brara isUniqueA clause0_dup dupA decrefA freeA
  by_cases hu : σ.rc h = 1 <;>
    simp [hu, h1, Ne.symm h1]

/-- Claim C1: every clause-selection function, on a handler the caller
owns, returns the requested clause and discharges exactly one unit of
the caller's handler ownership — when the handler is unique the clause
is moved out with no refcount bump, sibling clauses are dropped and
the block is freed; otherwise the clause is duped and the handler
count decremented, the block staying live.  In both branches the
handler count falls by exactly one (never both a free and a decrement,
never neither) and the returned clause carries its own unit of
ownership. -/
theorem claim_C1_select_clause_ownership :
    (∀ (σ : KHeap) (h : Addr) (con : HndCount),
      1 ≤ σ.rc h →
      1 ≤ σ.rc con.fun_one.funAddr → 1 ≤ σ.rc con.fun_two.funAddr →
      h ≠ con.fun_one.funAddr → h ≠ con.fun_two.funAddr →
      con.fun_one.funAddr ≠ con.fun_two.funAddr →
      (select_one σ h con).2 = con.fun_one ∧
      (select_one σ h con).1.rc h = σ.rc h - 1 ∧
      1 ≤ (select_one σ h con).1.rc con.fun_one.funAddr ∧
      (isUniqueA σ h = true →
        (select_one σ h con).1.rc h = 0 ∧
        (select_one σ h con).1.rc con.fun_one.funAddr = σ.rc con.fun_one.funAddr ∧
        (select_one σ h con).1.rc con.fun_two.funAddr
          = σ.rc con.fun_two.funAddr - 1) ∧
      (isUniqueA σ h = false →
        1 ≤ (select_one σ h con).1.rc h ∧
        (select_one σ h con).1.rc con.fun_one.funAddr
          = σ.rc con.fun_one.funAddr + 1 ∧
        (select_one σ h con).1.rc con.fun_two.funAddr
          = σ.rc con.fun_two.funAddr)) ∧
    (∀ (σ : KHeap) (h : Addr) (con : HndCount),
      1 ≤ σ.rc h →
      1 ≤ σ.rc con.fun_one.funAddr → 1 ≤ σ.rc con.fun_two.funAddr →
      h ≠ con.fun_one.funAddr → h ≠ con.fun_two.funAddr →
      con.fun_one.funAddr ≠ con.fun_two.funAddr →
      (select_two σ h con).2 = con.fun_two ∧
      (select_two σ h con).1.rc h = σ.rc h - 1 ∧
      1 ≤ (select_two σ h con).1.rc con.fun_two.funAddr ∧
      (isUniqueA σ h = true →
        (select_two σ h con).1.rc h = 0 ∧
        (select_two σ h con).1.rc con.fun_two.funAddr = σ.rc con.fun_two.funAddr ∧
        (select_two σ h con).1.rc con.fun_one.funAddr
          = σ.rc con.fun_one.funAddr - 1) ∧
      (isUniqueA σ h = false →
        1 ≤ (select_two σ h con).1.rc h ∧
        (select_two σ h con).1.rc con.fun_two.funAddr
          = σ.rc con.fun_two.funAddr + 1 ∧
        (select_two σ h con).1.rc con.fun_one.funAddr
          = σ.rc con.fun_one.funAddr)) ∧
    (∀ (σ : KHeap) (h : Addr) (con : HndBra),
      1 ≤ σ.rc h →
      1 ≤ σ.rc con.fun_brara.funAddr →
      h ≠ con.fun_brara.funAddr →
      (select_brara σ h con).2 = con.fun_brara ∧
      (select_brara σ h con).1.rc h = σ.rc h - 1 ∧
      1 ≤ (select_brara σ h con).1.rc con.fun_brara.funAddr ∧
      (isUniqueA σ h = true →
        (select_brara σ h con).1.rc h = 0 ∧
        (select_brara σ h con).1.rc con.fun_brara.funAddr
          = σ.rc con.fun_brara.funAddr) ∧
      (isUniqueA σ h = false →
        1 ≤ (select_brara σ h con).1.rc h ∧
        (select_brara σ h con).1.rc con.fun_brara.funAddr
          = σ.rc con.fun_brara.funAddr + 1)) := by
  refine ⟨?_, ?_, ?_⟩
  · intro σ h con hh hf1 hf2 hne1 hne2 hne3
    obtain ⟨ha, hb, hc⟩ := select_one_rc σ h con hne1 hne2 hne3
    have hcl := select_one_clause σ h con
    by_cases hu : σ.rc h = 1
    · obtain ⟨e1, e2⟩ := hb hu
      refine ⟨hcl, ha, by omega, fun _ => ⟨by omega, e1, e2⟩, fun hfalse => ?_⟩
      simp [isUniqueA, hu] at hfalse
    · obtain ⟨e1, e2⟩ := hc hu
      refine ⟨hcl, ha, by omega, fun htrue => ?_, fun _ => ⟨by omega, e1, e2⟩⟩
      simp [isUniqueA, hu] at htrue
  · intro σ h con hh hf1 hf2 hne1 hne2 hne3
    obtain ⟨ha, hb, hc⟩ := select_two_rc σ h con hne1 hne2 hne3
    have hcl := select_two_clause σ h con
    by_cases hu : σ.rc h = 1
    · obtain ⟨e1, e2⟩ := hb hu
      refine ⟨hcl, ha, by omega, fun _ => ⟨by omega, e1, e2⟩, fun hfalse => ?_⟩
      simp [isUniqueA, hu] at hfalse
    · obtain ⟨e1, e2⟩ := hc hu
      refine ⟨hcl, ha, by omega, fun htrue => ?_, fun _ => ⟨by omega, e1, e2⟩⟩
      simp [isUniqueA, hu] at htrue
  · intro σ h con hh hf1 hne1
    obtain ⟨ha, hb, hc⟩ := select_brara_rc σ h con hne1
    have hcl := select_brara_clause σ h con
    by_cases hu : σ.rc h = 1
    · refine ⟨hcl, ha, by omega, fun _ => ⟨by omega, hb hu⟩, fun hfalse => ?_⟩
      simp [isUniqueA, hu] at hfalse
    · refine ⟨hcl, ha, by omega, fun htrue => ?_, fun _ => ⟨by omega, hc hu⟩⟩
      simp [isUniqueA, hu] at htrue

/-- Witness for C1: a shared handler (count 2, at address 10) with
clauses at addresses 1 and 2 yields the `one` clause and a handler
count of 1. -/
theorem claim_C1_select_clause_ownership_witness :
    (select_one ⟨fun a => if a = 10 then 2 else 1⟩ 10 ⟨⟨1⟩, ⟨2⟩⟩).2 = ⟨1⟩ ∧
    (select_one ⟨fun a => if a = 10 then 2 else 1⟩ 10 ⟨⟨1⟩, ⟨2⟩⟩).1.rc 10 = 2 - 1 := by
  have h := claim_C1_select_clause_ownership.1 ⟨fun a => if a = 10 then 2 else 1⟩
    10 ⟨⟨1⟩, ⟨2⟩⟩ (by decide) (by decide) (by decide)
    (by decide) (by decide) (by decide)
  exact ⟨h.1, h.2.1⟩

/-! ## Operation invocations (test_float_bench2.h lines 309-375) -/

/-- Boxed values, as far as the embedded code inspects them: boxed
integers (`kk_integer_box`), the unit value, and boxed heap blocks. -/
inductive KBox where
  | intV (n : Int)
  | unitV
  | blockV (a : Addr)
deriving DecidableEq

/-- `struct kk_std_core_hnd_Ev`, restricted to the fields the
operation code reads: the marker and the boxed handler. -/
structure EvC where
  marker : Int
  hndBox : KBox
deriving DecidableEq

/-- The per-context state reached through `kk_context()`: the
evidence vector of the current execution context. -/
structure KContext where
  evv : List EvC

/-- Modelled from the spec: `kk_evv_at i ctx` (std/core/hnd, not under
src/) returns the evidence entry at compile-time-stable index `i` of
the current context's evidence vector; a missing entry is a fatal
MissingHandler condition, modelled as `none`. -/
def kk_evv_at (i : Nat) (ctx : KContext) : Option EvC := ctx.evv[i]?

/-- `kk_test_float_bench2_one` (test_float_bench2.h lines 333-351):
fetch evidence index 0, read its marker and boxed handler, unbox the
handler, dup it, select the `one` clause, call the clause's function
with (marker, evidence entry, boxed argument), and unbox the integer
result.  `call` is the oracle for `kk_function_call` on a function
object (by address); `none` models the undefined behavior of a
missing entry, a non-handler box, or a non-integer clause result. -/
def kk_test_float_bench2_one (store : Addr → HndCount)
    (call : Addr → Int → EvC → KBox → KBox)
    (σ : KHeap) (ctx : KContext) (a : Int) : Option (KHeap × Int) :=
  match kk_evv_at 0 ctx with
  | none => none
  | some ev =>
    match ev.hndBox with
    | KBox.blockV haddr =>
      let h := store haddr
      let σ1 := dupA σ haddr
      let sel := select_one σ1 haddr h
      match call sel.2.funAddr ev.marker ev (KBox.intV a) with
      | KBox.intV n => some (sel.1, n)
      | _ => none
    | _ => none

/-- `kk_test_float_bench2_two` (test_float_bench2.h lines 357-375):
identical to the `one` invocation with the `two` clause selected. -/
def kk_test_float_bench2_two (store : Addr → HndCount)
    (call : Addr → Int → EvC → KBox → KBox)
    (σ : KHeap) (ctx : KContext) (a : Int) : Option (KHeap × Int) :=
  match kk_evv_at 0 ctx with
  | none => none
  | some ev =>
    match ev.hndBox with
    | KBox.blockV haddr =>
      let h := store haddr
      let σ1 := dupA σ haddr
      let sel := select_two σ1 haddr h
      match call sel.2.funAddr ev.marker ev (KBox.intV a) with
      | KBox.intV n => some (sel.1, n)
      | _ => none
    | _ => none

/-- `kk_test_float_bench2_brara` (test_float_bench2.h lines 309-327):
the zero-argument `brara` operation; the clause is called with
(marker, evidence entry) only and its result unboxed as unit. -/
def kk_test_float_bench2_brara (storeB : Addr → HndBra)
    (call0 : Addr → Int → EvC → KBox)
    (σ : KHeap) (ctx : KContext) : Option (KHeap × Unit) :=
  match kk_evv_at 0 ctx with
  | none => none
  | some ev =>
    match ev.hndBox with
    | KBox.blockV haddr =>
      let h := storeB haddr
      let σ1 := dupA σ haddr
      let sel := select_brara σ1 haddr h
      match call0 sel.2.funAddr ev.marker ev with
      | KBox.unitV => some (sel.1, ())
      | _ => none
    | _ => none

/-- Claim C4: every operation invocation dups the handler unboxed from
the located evidence entry before clause selection, so the entry's
stored handler count is net unchanged by the lookup-plus-selection
sequence (the dup adds the unit that the selection discharges) and the
entry remains live across the call. -/
theorem claim_C4_op_dup_preserves_handler :
    (∀ store call σ ctx (a : Int) ev haddr (n : Int),
      kk_evv_at 0 ctx = some ev →
      ev.hndBox = KBox.blockV haddr →
      1 ≤ σ.rc haddr →
      haddr ≠ (store haddr).fun_one.funAddr →
      haddr ≠ (store haddr).fun_two.funAddr →
      (store haddr).fun_one.funAddr ≠ (store haddr).fun_two.funAddr →
      call (store haddr).fun_one.funAddr ev.marker ev (KBox.intV a) = KBox.intV n →
      ∃ σ2, kk_test_float_bench2_one store call σ ctx a = some (σ2, n) ∧
        σ2.rc haddr = σ.rc haddr ∧ 1 ≤ σ2.rc haddr) ∧
    (∀ store call σ ctx (a : Int) ev haddr (n : Int),
      kk_evv_at 0 ctx = some ev →
      ev.hndBox = KBox.blockV haddr →
      1 ≤ σ.rc haddr →
      haddr ≠ (store haddr).fun_one.funAddr →
      haddr ≠ (store haddr).fun_two.funAddr →
      (store haddr).fun_one.funAddr ≠ (store haddr).fun_two.funAddr →
      call (store haddr).fun_two.funAddr ev.marker ev (KBox.intV a) = KBox.intV n →
      ∃ σ2, kk_test_float_bench2_two store call σ ctx a = some (σ2, n) ∧
        σ2.rc haddr = σ.rc haddr ∧ 1 ≤ σ2.rc haddr) ∧
    (∀ storeB call0 σ ctx ev haddr,
      kk_evv_at 0 ctx = some ev →
      ev.hndBox = KBox.blockV haddr →
      1 ≤ σ.rc haddr →
      haddr ≠ (storeB haddr).fun_brara.funAddr →
      call0 (storeB haddr).fun_brara.funAddr ev.marker ev = KBox.unitV →
      ∃ σ2, kk_test_float_bench2_brara storeB call0 σ ctx = some (σ2, ()) ∧
        σ2.rc haddr = σ.rc haddr ∧ 1 ≤ σ2.rc haddr) := by
  refine ⟨?_, ?_, ?_⟩
  · intro store call σ ctx a ev haddr n hev hbox hrc hne1 hne2 hne3 hcall
    have hd : (dupA σ haddr).rc haddr = σ.rc haddr + 1 := by simp [dupA]
    have hs := (select_one_rc (dupA σ haddr) haddr (store haddr) hne1 hne2 hne3).1
    refine ⟨(select_one (dupA σ haddr) haddr (store haddr)).1, ?_, by omega, by omega⟩
    simp only [kk_test_float_bench2_one, hev, hbox, select_one_clause, hcall]
  · intro store call σ ctx a ev haddr n hev hbox hrc hne1 hne2 hne3 hcall
    have hd : (dupA σ haddr).rc haddr = σ.rc haddr + 1 := by simp [dupA]
    have hs := (select_two_rc (dupA σ haddr) haddr (store haddr) hne1 hne2 hne3).1
    refine ⟨(select_two (dupA σ haddr) haddr (store haddr)).1, ?_, by omega, by omega⟩
    simp only [kk_test_float_bench2_two, hev, hbox, select_two_clause, hcall]
  · intro storeB call0 σ ctx ev haddr hev hbox hrc hne1 hcall
    have hd : (dupA σ haddr).rc haddr = σ.rc haddr + 1 := by simp [dupA]
    have hs := (select_brara_rc (dupA σ haddr) haddr (storeB haddr) hne1).1
    refine ⟨(select_brara (dupA σ haddr) haddr (storeB haddr)).1, ?_, by omega, by omega⟩
    simp only [kk_test_float_bench2_brara, hev, hbox, select_brara_clause, hcall]

/-- Witness for C4: an invocation of `one` on a handler with count 1
at address 10, whose clause returns the boxed integer 7. -/
theorem claim_C4_op_dup_preserves_handler_witness :
    ∃ σ2, kk_test_float_bench2_one (fun _ => ⟨⟨1⟩, ⟨2⟩⟩)
        (fun _ _ _ _ => KBox.intV 7) ⟨fun _ => 1⟩ ⟨[⟨5, KBox.blockV 10⟩]⟩ 3
        = some (σ2, 7) ∧
      σ2.rc 10 = (⟨fun _ => 1⟩ : KHeap).rc 10 ∧ 1 ≤ σ2.rc 10 :=
  claim_C4_op_dup_preserves_handler.1 (fun _ => ⟨⟨1⟩, ⟨2⟩⟩)
    (fun _ _ _ _ => KBox.intV 7) ⟨fun _ => 1⟩ ⟨[⟨5, KBox.blockV 10⟩]⟩ 3
    ⟨5, KBox.blockV 10⟩ 10 7 rfl rfl (by decide) (by decide) (by decide)
    (by decide) rfl

/-- Claim C5: the operation invocations call exactly the selected
clause's function with the marker taken from the located evidence
entry, the evidence entry itself, and the boxed operation arguments —
one boxed integer for `one` and `two`, none for `brara` — and return
the unboxed result of that call.  Because the call oracle is
universally quantified, the equalities pin the exact argument tuple
the generated code passes. -/
theorem claim_C5_op_invocation :
    (∀ store call σ ctx (a : Int) ev haddr (n : Int),
      kk_evv_at 0 ctx = some ev →
      ev.hndBox = KBox.blockV haddr →
      call (store haddr).fun_one.funAddr ev.marker ev (KBox.intV a) = KBox.intV n →
      kk_test_float_bench2_one store call σ ctx a
        = some ((select_one (dupA σ haddr) haddr (store haddr)).1, n)) ∧
    (∀ store call σ ctx (a : Int) ev haddr (n : Int),
      kk_evv_at 0 ctx = some ev →
      ev.hndBox = KBox.blockV haddr →
      call (store haddr).fun_two.funAddr ev.marker ev (KBox.intV a) = KBox.intV n →
      kk_test_float_bench2_two store call σ ctx a
        = some ((select_two (dupA σ haddr) haddr (store haddr)).1, n)) ∧
    (∀ storeB call0 σ ctx ev haddr,
      kk_evv_at 0 ctx = some ev →
      ev.hndBox = KBox.blockV haddr →
      call0 (storeB haddr).fun_brara.funAddr ev.marker ev = KBox.unitV →
      kk_test_float_bench2_brara storeB call0 σ ctx
        = some ((select_brara (dupA σ haddr) haddr (storeB haddr)).1, ())) := by
  refine ⟨?_, ?_, ?_⟩
  · intro store call σ ctx a ev haddr n hev hbox hcall
    simp only [kk_test_float_bench2_one, hev, hbox, select_one_clause, hcall]
  · intro store call σ ctx a ev haddr n hev hbox hcall
    simp only [kk_test_float_bench2_two, hev, hbox, select_two_clause, hcall]
  · intro storeB call0 σ ctx ev haddr hev hbox hcall
    simp only [kk_test_float_bench2_brara, hev, hbox, select_brara_clause, hcall]

/-- Witness for C5: an invocation of `two` whose clause returns the
boxed integer 9 yields exactly 9. -/
theorem claim_C5_op_invocation_witness :
    kk_test_float_bench2_two (fun _ => ⟨⟨1⟩, ⟨2⟩⟩)
        (fun _ _ _ _ => KBox.intV 9) ⟨fun _ => 1⟩ ⟨[⟨6, KBox.blockV 11⟩]⟩ 4
      = some ((select_two (dupA ⟨fun _ => 1⟩ 11) 11 ⟨⟨1⟩, ⟨2⟩⟩).1, 9) :=
  claim_C5_op_invocation.2.1 (fun _ => ⟨⟨1⟩, ⟨2⟩⟩)
    (fun _ _ _ _ => KBox.intV 9) ⟨fun _ => 1⟩ ⟨[⟨6, KBox.blockV 11⟩]⟩ 4
    ⟨6, KBox.blockV 11⟩ 11 9 rfl rfl rfl
